import Mathlib

/-!
Shallow embedding of the knowledge-graph engine of the Node-Learner
repository (src/visualizer.py, src/utils.py, src/ai_explainer.py, src/db.py).

Python strings used as node labels are modelled as `List Char` so that the
underscore-joined edge keys of the persistence layer can be reasoned about
character by character; free-text attributes (titles, colors, summaries) are
plain `String`s.  A NetworkX `nx.Graph` is modelled as an insertion-ordered
association list of nodes (label to attribute record) together with an
insertion-ordered list of undirected edges (ordered as first inserted).  A
node or edge created without attributes (NetworkX creates bare endpoints on
`add_edge`) carries `none`; attribute dictionaries written in full by the
source are `some` of a record.  `uuid.uuid4()` node ids are modelled as a
fresh natural-number counter threaded through graph construction.
-/

abbrev Label := List Char

/-- Node attribute dictionary as written by `create_knowledge_graph` /
`add_subnodes_to_graph` in src/visualizer.py: `size`, `color`, `title`,
`type`, `level`, optional `parent`, `node_id`.  The Python key `type` is a
Lean keyword, hence the field name `ntype`. -/
structure NodeAttrs where
  size : Nat
  color : String
  title : String
  ntype : String
  level : Nat
  parent : Option Label
  node_id : Nat
deriving DecidableEq, Repr

/-- Edge attribute dictionary as written by the source: `title`, `weight`. -/
structure EdgeAttrs where
  title : String
  weight : Nat
deriving DecidableEq, Repr

/-- Model of a NetworkX undirected graph: insertion-ordered node list keyed
by label, and insertion-ordered edge list (endpoints in first-insertion
order).  `none` attribute payloads stand for an empty attribute dict. -/
structure Graph where
  nodes : List (Label × Option NodeAttrs)
  edges : List (Label × Label × Option EdgeAttrs)
deriving DecidableEq, Repr

def Graph.empty : Graph := { nodes := [], edges := [] }

/-- Look up a node's attribute dict (outer `none` = node absent). -/
def lookupNodeL (ns : List (Label × Option NodeAttrs)) (l : Label) :
    Option (Option NodeAttrs) :=
  match ns with
  | [] => none
  | (k, a) :: rest => if k = l then some a else lookupNodeL rest l

def Graph.lookupNode (G : Graph) (l : Label) : Option (Option NodeAttrs) :=
  lookupNodeL G.nodes l

/-- `l in G` in Python (membership test on a NetworkX graph). -/
def Graph.hasNode (G : Graph) (l : Label) : Prop :=
  (G.lookupNode l).isSome = true

instance (G : Graph) (l : Label) : Decidable (G.hasNode l) := by
  unfold Graph.hasNode; infer_instance

/-- Replace the attribute dict of an existing node, keeping list order. -/
def replaceNodeL (ns : List (Label × Option NodeAttrs)) (l : Label)
    (a : Option NodeAttrs) : List (Label × Option NodeAttrs) :=
  match ns with
  | [] => []
  | (k, b) :: rest =>
    if k = l then (k, a) :: rest else (k, b) :: replaceNodeL rest l a

/-- NetworkX `G.add_node(l, **attrs)`: create the node if absent; if present,
merge the keys of `attrs` into the stored dict.  The source always passes
either a full attribute record or nothing, so the merge is modelled as
full-record replacement (`some a`) or no change (`none`). -/
def Graph.addNodeOpt (G : Graph) (l : Label) (a : Option NodeAttrs) : Graph :=
  match lookupNodeL G.nodes l with
  | none => { G with nodes := G.nodes ++ [(l, a)] }
  | some _ =>
    match a with
    | none => G
    | some a' => { G with nodes := replaceNodeL G.nodes l (some a') }

def Graph.add_node (G : Graph) (l : Label) (a : NodeAttrs) : Graph :=
  G.addNodeOpt l (some a)

/-- NetworkX creates a bare (attribute-less) node for any `add_edge`
endpoint that does not exist yet. -/
def Graph.ensureNode (G : Graph) (l : Label) : Graph :=
  match lookupNodeL G.nodes l with
  | none => { G with nodes := G.nodes ++ [(l, none)] }
  | some _ => G

/-- Unordered lookup of an edge's attribute dict: NetworkX graphs are
undirected, so `(a, b)` and `(b, a)` are the same edge. -/
def lookupEdgeL (es : List (Label × Label × Option EdgeAttrs)) (a b : Label) :
    Option (Option EdgeAttrs) :=
  match es with
  | [] => none
  | (x, y, d) :: rest =>
    if (x = a ∧ y = b) ∨ (x = b ∧ y = a) then some d
    else lookupEdgeL rest a b

def Graph.lookupEdge (G : Graph) (a b : Label) : Option (Option EdgeAttrs) :=
  lookupEdgeL G.edges a b

def replaceEdgeL (es : List (Label × Label × Option EdgeAttrs)) (a b : Label)
    (e : Option EdgeAttrs) : List (Label × Label × Option EdgeAttrs) :=
  match es with
  | [] => []
  | (x, y, d) :: rest =>
    if (x = a ∧ y = b) ∨ (x = b ∧ y = a) then (x, y, e) :: rest
    else (x, y, d) :: replaceEdgeL rest a b e

/-- NetworkX `G.add_edge(a, b, **attrs)`: silently creates any missing
endpoint as a bare node, then creates the edge or merges attributes into an
existing edge (full-record replacement when attributes are passed, no change
when none are). -/
def Graph.add_edge (G : Graph) (a b : Label) (e : Option EdgeAttrs) : Graph :=
  let G1 := (G.ensureNode a).ensureNode b
  match lookupEdgeL G1.edges a b with
  | none => { G1 with edges := G1.edges ++ [(a, b, e)] }
  | some _ =>
    match e with
    | none => G1
    | some e' => { G1 with edges := replaceEdgeL G1.edges a b (some e') }

def Graph.nodeCount (G : Graph) : Nat := G.nodes.length

def Graph.edgeCount (G : Graph) : Nat := G.edges.length

/-! ## AI response records (src/ai_explainer.py)

The AI collaborator returns JSON dictionaries; the engine consumes the
already-parsed `{name, relation, summary}` concept records and
`{name, summary}` subtopic records, modelled as plain Lean records. -/

structure ConceptRec where
  name : Label
  relation : String
  summary : String
deriving DecidableEq, Repr

structure Subtopic where
  name : Label
  summary : String
deriving DecidableEq, Repr

/-- Result shape of `AIExplorer.explore_topic` consumed by
`create_knowledge_graph`: `topic`, `summary`, `related_concepts`,
optional `subtopics` (absent list modelled as `[]`, matching
`topic_data.get(..., [])` in the source). -/
structure TopicData where
  topic : Label
  summary : String
  related_concepts : List ConceptRec
  subtopics : List Subtopic
deriving DecidableEq, Repr

/-- Result shape of `AIExplorer.explore_subtopic` consumed by
`add_subnodes_to_graph` (only the `related_concepts` key is read,
via `subnodes_data.get('related_concepts', [])`). -/
structure SubnodesData where
  related_concepts : List ConceptRec
deriving DecidableEq, Repr

/-- `AIExplorer.explore_subtopic` catches every exception of the provider
call and returns a fallback dictionary whose `related_concepts` list is
empty (src/ai_explainer.py lines 408-415); it never raises to its caller. -/
def exploreSubtopicFailure : SubnodesData := { related_concepts := [] }

/-! ## Graph construction (src/visualizer.py) -/

/-- Loop over `topic_data.get("related_concepts", [])` in
`create_knowledge_graph`: each concept becomes a level-1 node plus an edge
from the main topic.  `nid` threads the fresh-id counter standing for
`uuid.uuid4()`. -/
def addConceptsLoop (main_topic : Label) (G : Graph) :
    List ConceptRec → Nat → Graph
  | [], _ => G
  | c :: rest, nid =>
    let G1 := G.add_node c.name
      { size := 15, color := "#7C4DFF", title := c.summary, ntype := "concept",
        level := 1, parent := some main_topic, node_id := nid }
    let G2 := G1.add_edge main_topic c.name
      (some { title := c.relation, weight := 1 })
    addConceptsLoop main_topic G2 rest (nid + 1)

/-- Loop over `topic_data.get("subtopics", [])` in `create_knowledge_graph`. -/
def addSubtopicsLoop (main_topic : Label) (G : Graph) :
    List Subtopic → Nat → Graph
  | [], _ => G
  | s :: rest, nid =>
    let G1 := G.add_node s.name
      { size := 20, color := "#3949AB", title := s.summary, ntype := "subtopic",
        level := 1, parent := some main_topic, node_id := nid }
    let G2 := G1.add_edge main_topic s.name
      (some { title := "subtopic", weight := 1 })
    addSubtopicsLoop main_topic G2 rest (nid + 1)

/-- `create_knowledge_graph(topic_data)` (src/visualizer.py lines 12-37):
fresh graph, one main-topic node of `type="main"` at level 0 with no
`parent` key, then related concepts, then subtopics. -/
def create_knowledge_graph (td : TopicData) (nid : Nat) : Graph :=
  let G := Graph.empty.add_node td.topic
    { size := 25, color := "#6200EA", title := td.summary, ntype := "main",
      level := 0, parent := none, node_id := nid }
  let G := addConceptsLoop td.topic G td.related_concepts (nid + 1)
  addSubtopicsLoop td.topic G td.subtopics
    (nid + 1 + td.related_concepts.length)

/-- `G.nodes[node_name].get('level', 0)` in `add_subnodes_to_graph`:
the stored `level`, defaulting to 0 when the attribute dict has no such key.
(The source computes this once, before its loop.) -/
def Graph.parentLevel (G : Graph) (l : Label) : Nat :=
  match G.lookupNode l with
  | some (some a) => a.level
  | _ => 0

/-- The fixed palette of `add_subnodes_to_graph` and its
`colors[min((parent_level + 1) % len(colors), len(colors) - 1)]` index. -/
def subnodeColors : List String :=
  ["#E91E63", "#00BCD4", "#FF9800", "#4CAF50", "#9C27B0"]

def levelColor (parent_level : Nat) : String :=
  subnodeColors.getD
    (min ((parent_level + 1) % subnodeColors.length) (subnodeColors.length - 1))
    ""

/-- The `for subnode in subnodes_data.get('related_concepts', [])` loop of
`add_subnodes_to_graph` (src/visualizer.py lines 46-72): a concept whose
`name` is already a node of the graph is skipped entirely (neither a node
nor an edge is added for it); otherwise a new `sub-concept` node at
`parent_level + 1` and an edge from the expanded node are created. -/
def addSubnodesLoop (parent_level : Nat) (node_name : Label) (G : Graph) :
    List ConceptRec → Nat → Graph
  | [], _ => G
  | s :: rest, nid =>
    if G.hasNode s.name then
      addSubnodesLoop parent_level node_name G rest nid
    else
      let G1 := G.add_node s.name
        { size := 12, color := levelColor parent_level, title := s.summary,
          ntype := "sub-concept", level := parent_level + 1,
          parent := some node_name, node_id := nid }
      let G2 := G1.add_edge node_name s.name
        (some { title := s.relation, weight := 1 })
      addSubnodesLoop parent_level node_name G2 rest (nid + 1)

/-- `add_subnodes_to_graph(G, node_name, subnodes_data)`
(src/visualizer.py lines 39-74). -/
def add_subnodes_to_graph (G : Graph) (node_name : Label)
    (subnodes_data : SubnodesData) (nid : Nat) : Graph :=
  addSubnodesLoop (G.parentLevel node_name) node_name G
    subnodes_data.related_concepts nid

/-! ## Expansion bookkeeping (src/visualizer.py `show_visualizer`) -/

/-- The session state touched by one expansion step: the graph, the
`subnodes_expanded` idempotence guard and the `nodes_explored` set. -/
structure ExpandState where
  graph : Graph
  subnodes_expanded : List Label
  nodes_explored : List Label
deriving DecidableEq, Repr

/-- One expansion step as performed by `show_visualizer` (identically at
lines 609-641, auto-expand lines 417-441 and the expand button lines
702-737): guarded by `node_to_expand in graph.nodes() and node_to_expand
not in subnodes_expanded`; on entry it merges the AI response into the
graph via `add_subnodes_to_graph` and adds the label to both
`subnodes_expanded` and `nodes_explored`; otherwise nothing happens. -/
def expandNodeStep (st : ExpandState) (label : Label)
    (response : SubnodesData) (nid : Nat) : ExpandState :=
  if st.graph.hasNode label ∧ label ∉ st.subnodes_expanded then
    { graph := add_subnodes_to_graph st.graph label response nid,
      subnodes_expanded := st.subnodes_expanded ++ [label],
      nodes_explored :=
        if label ∈ st.nodes_explored then st.nodes_explored
        else st.nodes_explored ++ [label] }
  else st

/-- The delta of one expansion step: the labels of nodes present afterwards
that were not present before (the spec's "set of newly created labels"). -/
def expandDelta (st : ExpandState) (label : Label) (response : SubnodesData)
    (nid : Nat) : List Label :=
  ((expandNodeStep st label response nid).graph.nodes.filter
    (fun p => ¬ st.graph.hasNode p.1)).map (fun p => p.1)

/-! ## Persistence: flat node-map / edge-map document (src/utils.py) -/

/-- The flat persisted tree shape handed to MongoDB: `nodes` maps each label
to its attribute dict, `edges` maps the key `f"{a}_{b}"` to the edge's
attribute dict. -/
structure TreeDocument where
  nodes : List (Label × Option NodeAttrs)
  edges : List (Label × Option EdgeAttrs)
deriving DecidableEq, Repr

/-- `networkx_to_nodes_edges(graph)` (src/utils.py lines 50-64): every node
with its attribute dict, every edge keyed by its endpoint labels joined with
an underscore. -/
def networkx_to_nodes_edges (G : Graph) : TreeDocument :=
  { nodes := G.nodes,
    edges := G.edges.map (fun t => (t.1 ++ '_' :: t.2.1, t.2.2)) }

/-- Python `str.split(c)` on the character level: splits at every
occurrence of `c`; always returns at least one (possibly empty) piece. -/
def splitOnChar (c : Char) : List Char → List (List Char)
  | [] => [[]]
  | x :: xs =>
    match splitOnChar c xs with
    | [] => [[]]
    | h :: t => if x = c then [] :: h :: t else (x :: h) :: t

/-- One iteration of the edge loop of `nodes_edges_to_networkx`:
`source, target = edge_key.split('_')` (raising `ValueError` unless the
split yields exactly two pieces) followed by
`G.add_edge(source, target, **edge_attrs)`. -/
def addDocEdge (G : Graph) (p : Label × Option EdgeAttrs) : Except String Graph :=
  match splitOnChar '_' p.1 with
  | [source, target] => Except.ok (G.add_edge source target p.2)
  | _ => Except.error "ValueError: unpack edge_key.split"

/-- `nodes_edges_to_networkx(nodes, edges)` (src/utils.py lines 66-79):
rebuilds a NetworkX graph by adding every node of the node map with its
stored attributes, then running the edge loop `addDocEdge` over the edge
map. -/
def nodes_edges_to_networkx (doc : TreeDocument) : Except String Graph :=
  let G0 := doc.nodes.foldl (fun G p => G.addNodeOpt p.1 p.2) Graph.empty
  doc.edges.foldlM addDocEdge G0

/-! ## AIExplorer capability surface (src/ai_explainer.py) -/

/-- The operation names defined on `class AIExplorer` in
src/ai_explainer.py (its complete method table). -/
def AIExplorer_methods : List String :=
  ["__init__", "explore_topic", "_explore_with_google", "_explore_with_groq",
   "get_detailed_explanation", "explore_subtopic"]

/-- Python attribute lookup of a method on an `AIExplorer` instance:
`explorer.m(...)` raises `AttributeError` when `m` is not in the class's
method table. -/
def invokeAIExplorerMethod (m : String) : Except String Unit :=
  if m ∈ AIExplorer_methods then Except.ok ()
  else Except.error ("AttributeError: AIExplorer has no attribute " ++ m)

/-- The fetch performed by the auto-expand scheduling step for a dequeued
label (src/visualizer.py line 428): `explorer.get_related_concepts(node_to_expand)`. -/
def autoExpandFetch : Except String Unit :=
  invokeAIExplorerMethod "get_related_concepts"

/-! ## Session time logging (src/visualizer.py lines 780-821)

The tracked state is a single wall-clock timestamp
`st.session_state.exploration_start_time`; times are modelled in whole
seconds (`int(time_spent)` truncates, exact on whole-second inputs). -/

structure SessionLogState where
  exploration_start_time : Nat
  /-- `time_spent` values of the records handed to
  `db.log_learning_session`, in order. -/
  logged_time_spent : List Nat
deriving DecidableEq, Repr

/-- One pass through the session-logging block at the end of
`show_visualizer`: with `time_spent = now - exploration_start_time`, a
record is logged only when `time_spent > 30` and some node was explored;
afterwards the timer is reset (`exploration_start_time = current_time`). -/
def maybeLogSession (st : SessionLogState) (now : Nat)
    (explored_nonempty : Bool) : SessionLogState :=
  let time_spent := now - st.exploration_start_time
  if time_spent > 30 ∧ explored_nonempty = true then
    { exploration_start_time := now,
      logged_time_spent := st.logged_time_spent ++ [time_spent] }
  else st

/-! ## Per-label time tracker -/

/-- Modelled from the spec: the repository's source keeps only the single
global `exploration_start_time` timestamp; the per-node-label TimeTracker
(states `Idle` / `Active(label, since)`, per-label accumulated seconds) that
§4.3 of the specification describes has no counterpart under src/, so it is
modelled here from the spec's words. -/
structure TimeTracker where
  accumulated : List (Label × Nat)
  active : Option (Label × Nat)
deriving DecidableEq, Repr

def lookupAcc (acc : List (Label × Nat)) (l : Label) : Nat :=
  match acc with
  | [] => 0
  | (k, n) :: rest => if k = l then n else lookupAcc rest l

def setAcc (acc : List (Label × Nat)) (l : Label) (n : Nat) :
    List (Label × Nat) :=
  match acc with
  | [] => [(l, n)]
  | (k, m) :: rest =>
    if k = l then (k, n) :: rest else (k, m) :: setAcc rest l n

/-- Modelled from the spec: `activate(label)` — if `Active(other, since)`
with `other ≠ label`, flush `now - since` into `accumulated[other]` and
become `Active(label, now)`; a repeated `activate` of the already-active
label is a no-op; from `Idle` simply become `Active(label, now)`. -/
def TimeTracker.activate (tt : TimeTracker) (label : Label) (now : Nat) :
    TimeTracker :=
  match tt.active with
  | none => { tt with active := some (label, now) }
  | some (other, since) =>
    if other = label then tt
    else
      { accumulated :=
          setAcc tt.accumulated other (lookupAcc tt.accumulated other + (now - since)),
        active := some (label, now) }

/-- Modelled from the spec: `deactivate()` flushes the active label and
transitions to `Idle`. -/
def TimeTracker.deactivate (tt : TimeTracker) (now : Nat) : TimeTracker :=
  match tt.active with
  | none => tt
  | some (other, since) =>
    { accumulated :=
        setAcc tt.accumulated other (lookupAcc tt.accumulated other + (now - since)),
      active := none }

/-- Modelled from the spec: `elapsed(label)` = accumulated seconds plus the
running delta when `label` is the active label (read-only). -/
def TimeTracker.elapsed (tt : TimeTracker) (label : Label) (now : Nat) : Nat :=
  lookupAcc tt.accumulated label +
    match tt.active with
    | some (other, since) => if other = label then now - since else 0
    | none => 0

/-! ## Well-formedness predicates used as hypotheses -/

/-- Every edge's endpoints are present as nodes (an invariant NetworkX
maintains by construction). -/
def edgesEndpointsExist (G : Graph) : Bool :=
  G.edges.all
    (fun t => (lookupNodeL G.nodes t.1).isSome && (lookupNodeL G.nodes t.2.1).isSome)

/-- Node-map well-formedness for persistence: pairwise-distinct keys, none
containing an underscore. -/
def nodesWFb : List (Label × Option NodeAttrs) → Bool
  | [] => true
  | (k, _) :: rest =>
    (lookupNodeL rest k).isNone && !(decide ('_' ∈ k)) && nodesWFb rest

/-- Edge-list well-formedness for persistence: endpoints present in the
node map, and no unordered endpoint pair occurs twice. -/
def edgesWFb (ns : List (Label × Option NodeAttrs)) :
    List (Label × Label × Option EdgeAttrs) → Bool
  | [] => true
  | (a, b, _) :: rest =>
    (lookupNodeL ns a).isSome && (lookupNodeL ns b).isSome &&
    (lookupEdgeL rest a b).isNone && edgesWFb ns rest

/-- Well-formedness of a graph about to be persisted: the shape every graph
built by this program's operations has, plus the round-trip claim's
hypothesis that no label contains an underscore. -/
def Graph.wfPersist (G : Graph) : Bool :=
  nodesWFb G.nodes && edgesWFb G.nodes G.edges

/-- The two frame checks of an expansion: every node label present before
keeps the same lookup result (hence the same attributes), and every edge
present before keeps the same attributes. -/
def framePreserved (old new : Graph) : Bool :=
  old.nodes.all
    (fun p => decide (lookupNodeL new.nodes p.1 = lookupNodeL old.nodes p.1)) &&
  old.edges.all
    (fun t => decide (lookupEdgeL new.edges t.1 t.2.1 = lookupEdgeL old.edges t.1 t.2.1))

/-- The additions-only checks of an expansion: every node of the new graph
was already present or is named by the AI response, and every edge of the
new graph was already present or is incident to the expanded node. -/
def onlyAdds (old new : Graph) (label : Label) (names : List Label) : Bool :=
  new.nodes.all
    (fun p => (lookupNodeL old.nodes p.1).isSome || names.any (fun n => decide (n = p.1))) &&
  new.edges.all
    (fun t => (lookupEdgeL old.edges t.1 t.2.1).isSome ||
      decide (t.1 = label) || decide (t.2.1 = label))

/-! ## Sample inputs and derived attribute shapes -/

/-- Sample graph used to instantiate hypotheses at concrete inputs: a main
node `A` and a concept node `B` with no edge between them. -/
def sampleGraphAB : Graph :=
  { nodes := [(['A'], some ⟨25, "#6200EA", "tA", "main", 0, none, 0⟩),
              (['B'], some ⟨15, "#7C4DFF", "tB", "concept", 1, some ['A'], 1⟩)],
    edges := [] }

/-- The node `type` strings the graph-building operations actually write. -/
def allowedNodeTypes : List String := ["main", "concept", "subtopic", "sub-concept"]

/-- Every node that carries an attribute dict has a `type` from
`allowedNodeTypes`. -/
def Graph.typesOKb (G : Graph) : Bool :=
  G.nodes.all
    (fun p =>
      match p.2 with
      | some a => decide (a.ntype ∈ allowedNodeTypes)
      | none => true)

/-- Sample persisted-round-trip graph: two attributed nodes joined by one
edge, no underscore in any label. -/
def sampleRoundtripGraph : Graph :=
  { nodes := [(['a'], some ⟨25, "#6200EA", "ta", "main", 0, none, 0⟩),
              (['b'], some ⟨15, "#7C4DFF", "tb", "concept", 1, some ['a'], 1⟩)],
    edges := [(['a'], ['b'], some ⟨"rel", 1⟩)] }

/-- The attribute record `add_subnodes_to_graph` writes for a newly created
sub-concept node. -/
def subnodeAttrs (pl : Nat) (node_name : Label) (s : ConceptRec) (nid : Nat) :
    NodeAttrs :=
  { size := 12, color := levelColor pl, title := s.summary,
    ntype := "sub-concept", level := pl + 1, parent := some node_name,
    node_id := nid }

/-- The graph after one fresh-concept iteration of the
`add_subnodes_to_graph` loop: the new node appended, plus the edge from the
expanded node. -/
def subnodeStep (pl : Nat) (node_name : Label) (s : ConceptRec) (G : Graph)
    (nid : Nat) : Graph :=
  { nodes := G.nodes ++ [(s.name, some (subnodeAttrs pl node_name s nid))],
    edges := G.edges ++ [(node_name, s.name, some { title := s.relation, weight := 1 })] }

/-! ## Helper lemmas on the association-list primitives -/

theorem lookupNodeL_append (ns ms : List (Label × Option NodeAttrs)) (l : Label) :
    lookupNodeL (ns ++ ms) l =
      match lookupNodeL ns l with
      | some a => some a
      | none => lookupNodeL ms l := by
  induction ns with
  | nil => simp [lookupNodeL]
  | cons p rest ih =>
    obtain ⟨k, a⟩ := p
    by_cases h : k = l
    · simp [lookupNodeL, h]
    · simp [lookupNodeL, h, ih]

theorem lookupNodeL_eq_none_iff (ns : List (Label × Option NodeAttrs)) (l : Label) :
    lookupNodeL ns l = none ↔ ∀ p ∈ ns, p.1 ≠ l := by
  induction ns with
  | nil => simp [lookupNodeL]
  | cons p rest ih =>
    obtain ⟨k, a⟩ := p
    by_cases h : k = l
    · simp [lookupNodeL, h]
    · simp [lookupNodeL, h, ih]

theorem lookupNodeL_isSome_of_mem {ns : List (Label × Option NodeAttrs)}
    {p : Label × Option NodeAttrs} (h : p ∈ ns) :
    (lookupNodeL ns p.1).isSome = true := by
  induction ns with
  | nil => simp at h
  | cons q rest ih =>
    obtain ⟨k, a⟩ := q
    by_cases hk : k = p.1
    · simp [lookupNodeL, hk]
    · rcases List.mem_cons.mp h with h' | h'
      · rw [h'] at hk; simp at hk
      · simp [lookupNodeL, hk, ih h']

theorem lookupEdgeL_append (es fs : List (Label × Label × Option EdgeAttrs))
    (a b : Label) :
    lookupEdgeL (es ++ fs) a b =
      match lookupEdgeL es a b with
      | some d => some d
      | none => lookupEdgeL fs a b := by
  induction es with
  | nil => simp [lookupEdgeL]
  | cons t rest ih =>
    obtain ⟨x, y, d⟩ := t
    by_cases h : (x = a ∧ y = b) ∨ (x = b ∧ y = a)
    · simp [lookupEdgeL, h]
    · simp [lookupEdgeL, h, ih]

theorem lookupEdgeL_eq_none_iff (es : List (Label × Label × Option EdgeAttrs))
    (a b : Label) :
    lookupEdgeL es a b = none ↔
      ∀ t ∈ es, ¬((t.1 = a ∧ t.2.1 = b) ∨ (t.1 = b ∧ t.2.1 = a)) := by
  induction es with
  | nil => simp [lookupEdgeL]
  | cons t rest ih =>
    obtain ⟨x, y, d⟩ := t
    by_cases h : (x = a ∧ y = b) ∨ (x = b ∧ y = a)
    · have hstep : lookupEdgeL ((x, y, d) :: rest) a b = some d := by
        simp [lookupEdgeL, h]
      constructor
      · intro hc; rw [hstep] at hc; cases hc
      · intro hall; exact absurd h (hall (x, y, d) (List.mem_cons_self _ _))
    · have hstep : lookupEdgeL ((x, y, d) :: rest) a b = lookupEdgeL rest a b := by
        simp [lookupEdgeL, h]
      rw [hstep, ih]
      constructor
      · intro hall s hs
        rcases List.mem_cons.mp hs with h' | h'
        · subst h'; exact h
        · exact hall s h'
      · intro hall s hs; exact hall s (List.mem_cons_of_mem _ hs)

theorem lookupEdgeL_isSome_of_mem {es : List (Label × Label × Option EdgeAttrs)}
    {t : Label × Label × Option EdgeAttrs} (h : t ∈ es) :
    (lookupEdgeL es t.1 t.2.1).isSome = true := by
  induction es with
  | nil => simp at h
  | cons s rest ih =>
    obtain ⟨x, y, d⟩ := s
    by_cases hk : (x = t.1 ∧ y = t.2.1) ∨ (x = t.2.1 ∧ y = t.1)
    · simp [lookupEdgeL, hk]
    · rcases List.mem_cons.mp h with h' | h'
      · subst h'; exact absurd (Or.inl ⟨rfl, rfl⟩) hk
      · simp [lookupEdgeL, hk, ih h']

theorem Graph.ensureNode_of_isSome {G : Graph} {l : Label}
    (h : (lookupNodeL G.nodes l).isSome = true) : G.ensureNode l = G := by
  unfold Graph.ensureNode
  cases hl : lookupNodeL G.nodes l with
  | none => rw [hl] at h; simp at h
  | some a => rfl

theorem lookupAcc_setAcc_self (acc : List (Label × Nat)) (l : Label) (n : Nat) :
    lookupAcc (setAcc acc l n) l = n := by
  induction acc with
  | nil => simp [setAcc, lookupAcc]
  | cons p rest ih =>
    obtain ⟨k, m⟩ := p
    by_cases h : k = l
    · simp [setAcc, lookupAcc, h]
    · simp [setAcc, lookupAcc, h, ih]

theorem addSubnodesLoop_all_present (pl : Nat) (label : Label) (G : Graph)
    (cs : List ConceptRec) (nid : Nat)
    (h : ∀ s ∈ cs, G.hasNode s.name) :
    addSubnodesLoop pl label G cs nid = G := by
  induction cs generalizing nid with
  | nil => rfl
  | cons s rest ih =>
    unfold addSubnodesLoop
    rw [if_pos (h s (List.mem_cons_self _ _))]
    exact ih _ (fun t ht => h t (List.mem_cons_of_mem _ ht))

/-! ## Claim theorems -/

/-- C1, counterexample: expanding node `A` with a returned concept whose
`name` `B` is already a node label leaves the graph completely unchanged —
in particular, after the expansion no edge exists between `A` and the
existing node `B`, refuting the claimed cross-link guarantee. -/
theorem existing_concept_no_cross_link_counterexample :
    add_subnodes_to_graph sampleGraphAB ['A']
      ⟨[⟨['B'], "rel", "sum"⟩]⟩ 2 = sampleGraphAB ∧
    (add_subnodes_to_graph sampleGraphAB ['A']
      ⟨[⟨['B'], "rel", "sum"⟩]⟩ 2).lookupEdge ['A'] ['B'] = none := by
  decide

/-- C1, amended: for every returned concept whose `name` is already a node
label, the expansion skips the concept entirely — it creates no new node
and leaves the existing node's attributes (including `level` and `parent`)
unchanged, but it also adds no cross-link edge; when every returned name
already exists, the graph is returned unchanged. -/
theorem existing_concepts_skipped_entirely (G : Graph) (label : Label)
    (sd : SubnodesData) (nid : Nat)
    (h : ∀ s ∈ sd.related_concepts, G.hasNode s.name) :
    add_subnodes_to_graph G label sd nid = G := by
  unfold add_subnodes_to_graph
  exact addSubnodesLoop_all_present _ _ _ _ _ h

/-- C1, witness: the amended theorem applied to the sample graph with a
response naming the existing node `B`. -/
theorem existing_concepts_skipped_entirely_witness :
    sampleGraphAB.hasNode ['B'] ∧
    add_subnodes_to_graph sampleGraphAB ['A'] ⟨[⟨['B'], "rel", "sum"⟩]⟩ 2 =
      sampleGraphAB :=
  ⟨by decide,
   existing_concepts_skipped_entirely sampleGraphAB ['A']
     ⟨[⟨['B'], "rel", "sum"⟩]⟩ 2 (by decide)⟩

/-- C2: when `label` is already in the expanded-set, the expansion step is a
no-op — the whole session state is returned unchanged, node and edge counts
are unchanged, and the delta of newly created labels is empty. -/
theorem expand_already_expanded_noop (st : ExpandState) (label : Label)
    (response : SubnodesData) (nid : Nat)
    (h : label ∈ st.subnodes_expanded) :
    expandNodeStep st label response nid = st ∧
    (expandNodeStep st label response nid).graph.nodeCount = st.graph.nodeCount ∧
    (expandNodeStep st label response nid).graph.edgeCount = st.graph.edgeCount ∧
    expandDelta st label response nid = [] := by
  have hguard : ¬ (st.graph.hasNode label ∧ label ∉ st.subnodes_expanded) :=
    fun hc => hc.2 h
  have heq : expandNodeStep st label response nid = st := by
    unfold expandNodeStep
    rw [if_neg hguard]
  refine ⟨heq, by rw [heq], by rw [heq], ?_⟩
  unfold expandDelta
  rw [heq]
  have hfil : st.graph.nodes.filter (fun p => ¬ st.graph.hasNode p.1) = [] := by
    rw [List.filter_eq_nil_iff]
    intro p hp
    have hs := lookupNodeL_isSome_of_mem hp
    simp [Graph.hasNode, Graph.lookupNode, hs]
  rw [hfil]
  rfl

/-- C2, witness: the no-op theorem applied to a concrete state whose
expanded-set already contains `A`. -/
theorem expand_already_expanded_noop_witness :
    (['A'] ∈ [(['A'] : Label)]) ∧
    expandNodeStep ⟨sampleGraphAB, [['A']], []⟩ ['A'] ⟨[⟨['C'], "r", "s"⟩]⟩ 7 =
      ⟨sampleGraphAB, [['A']], []⟩ :=
  ⟨by decide,
   (expand_already_expanded_noop ⟨sampleGraphAB, [['A']], []⟩ ['A']
     ⟨[⟨['C'], "r", "s"⟩]⟩ 7 (by decide)).1⟩

/-- C4, counterexample: when the AI collaborator fails, `explore_subtopic`
returns the empty-concept fallback; the expansion step then leaves the graph
unmutated but adds the label to the expanded-set, so the failed label can
NOT be retried — refuting the claim that the label is not added. -/
theorem failed_expansion_marks_expanded_counterexample :
    (expandNodeStep ⟨sampleGraphAB, [], []⟩ ['A'] exploreSubtopicFailure 5).subnodes_expanded
      = [['A']] ∧
    (expandNodeStep ⟨sampleGraphAB, [], []⟩ ['A'] exploreSubtopicFailure 5).graph
      = sampleGraphAB := by
  decide

/-- C4, amended: on AI-collaborator failure `explore_subtopic` does not
raise; it returns a fallback object with an empty concept list, so the
expansion step leaves the graph unmutated — but it still adds the label to
the expanded-set, making the failed expansion non-retryable, and no
ExpansionFailed condition carrying the label is surfaced to the caller. -/
theorem failed_expansion_behavior (st : ExpandState) (label : Label) (nid : Nat)
    (hn : st.graph.hasNode label) (hx : label ∉ st.subnodes_expanded) :
    (expandNodeStep st label exploreSubtopicFailure nid).graph = st.graph ∧
    (expandNodeStep st label exploreSubtopicFailure nid).subnodes_expanded =
      st.subnodes_expanded ++ [label] := by
  have heq : expandNodeStep st label exploreSubtopicFailure nid =
      { graph := add_subnodes_to_graph st.graph label exploreSubtopicFailure nid,
        subnodes_expanded := st.subnodes_expanded ++ [label],
        nodes_explored :=
          if label ∈ st.nodes_explored then st.nodes_explored
          else st.nodes_explored ++ [label] } := by
    unfold expandNodeStep
    rw [if_pos ⟨hn, hx⟩]
  rw [heq]
  exact ⟨rfl, rfl⟩

/-- C4, witness: the amended theorem applied to the sample graph with an
empty expanded-set. -/
theorem failed_expansion_behavior_witness :
    sampleGraphAB.hasNode ['A'] ∧
    (expandNodeStep ⟨sampleGraphAB, [], []⟩ ['A'] exploreSubtopicFailure 5).graph
      = sampleGraphAB :=
  ⟨by decide,
   (failed_expansion_behavior ⟨sampleGraphAB, [], []⟩ ['A'] 5
     (by decide) (by decide)).1⟩

/-- C5: `class AIExplorer` defines no `get_related_concepts` method, so the
auto-expand step's call `explorer.get_related_concepts(node_to_expand)`
raises `AttributeError` — the claim that the operation exists and the call
is well-defined fails on the code. -/
theorem autoExpand_get_related_concepts_missing :
    "get_related_concepts" ∉ AIExplorer_methods ∧
    autoExpandFetch =
      Except.error "AttributeError: AIExplorer has no attribute get_related_concepts" := by
  constructor
  · decide
  · rfl

/-- C7, counterexample: starting the session timer at t=0, logging a record
at t=40 and again at t=80 yields `time_spent` values `[40, 40]` — the timer
is reset to 40 by the first record, so the second reports 40, not the
cumulative 80 the claim predicts. -/
theorem session_second_record_counterexample :
    (maybeLogSession ⟨0, []⟩ 40 true).exploration_start_time = 40 ∧
    (maybeLogSession (maybeLogSession ⟨0, []⟩ 40 true) 80 true).logged_time_spent
      = [40, 40] ∧
    (40 : Nat) ≠ 80 := by
  decide

/-- C7, amended: after a learning-session record is logged, the session
timer IS reset to the logging time, so a second record built later in the
same session reports only the time elapsed since the first record
(incremental, not cumulative). -/
theorem session_timer_reset_incremental (st : SessionLogState) (t1 t2 : Nat)
    (h1 : t1 - st.exploration_start_time > 30) (h2 : t2 - t1 > 30) :
    (maybeLogSession st t1 true).exploration_start_time = t1 ∧
    (maybeLogSession (maybeLogSession st t1 true) t2 true).logged_time_spent =
      st.logged_time_spent ++ [t1 - st.exploration_start_time, t2 - t1] := by
  have e1 : maybeLogSession st t1 true =
      ⟨t1, st.logged_time_spent ++ [t1 - st.exploration_start_time]⟩ := by
    unfold maybeLogSession
    rw [if_pos ⟨h1, rfl⟩]
  have e2 : maybeLogSession (⟨t1, st.logged_time_spent ++ [t1 - st.exploration_start_time]⟩ : SessionLogState) t2 true =
      ⟨t2, (st.logged_time_spent ++ [t1 - st.exploration_start_time]) ++ [t2 - t1]⟩ := by
    unfold maybeLogSession
    rw [if_pos ⟨h2, rfl⟩]
  rw [e1, e2]
  simp

/-- C7, witness: the amended theorem applied at start time 0 with records
logged at t=40 and t=80. -/
theorem session_timer_reset_incremental_witness :
    (40 : Nat) - 0 > 30 ∧
    (maybeLogSession (maybeLogSession ⟨0, []⟩ 40 true) 80 true).logged_time_spent =
      [] ++ [40 - 0, 80 - 40] :=
  ⟨by decide,
   (session_timer_reset_incremental ⟨0, []⟩ 40 80 (by decide) (by decide)).2⟩

/-- C8 (spec-modelled TimeTracker): `activate(label)` flushes the elapsed
delta of the previously active label into that label's accumulated total
before switching, and the scenario activate(A)@0, activate(B)@10,
activate(A)@15, deactivate()@20 yields elapsed(A)=15 and elapsed(B)=5. -/
theorem timeTracker_flush_and_scenario (tt : TimeTracker) (other label : Label)
    (since now : Nat) (hact : tt.active = some (other, since))
    (hne : other ≠ label) :
    lookupAcc (tt.activate label now).accumulated other =
      lookupAcc tt.accumulated other + (now - since) ∧
    (tt.activate label now).active = some (label, now) ∧
    (((((TimeTracker.mk [] none).activate ['A'] 0).activate ['B'] 10).activate
        ['A'] 15).deactivate 20).elapsed ['A'] 20 = 15 ∧
    (((((TimeTracker.mk [] none).activate ['A'] 0).activate ['B'] 10).activate
        ['A'] 15).deactivate 20).elapsed ['B'] 20 = 5 := by
  have hstep : tt.activate label now =
      ⟨setAcc tt.accumulated other (lookupAcc tt.accumulated other + (now - since)),
       some (label, now)⟩ := by
    unfold TimeTracker.activate
    rw [hact]
    simp [hne]
  refine ⟨?_, ?_, by decide, by decide⟩
  · rw [hstep]
    exact lookupAcc_setAcc_self _ _ _
  · rw [hstep]

/-- C8, witness: the flush law applied to a tracker that is active on `A`
since t=0 when `B` is activated at t=10. -/
theorem timeTracker_flush_and_scenario_witness :
    (TimeTracker.mk [] (some (['A'], 0))).active = some (['A'], 0) ∧
    lookupAcc ((TimeTracker.mk [] (some (['A'], 0))).activate ['B'] 10).accumulated ['A'] =
      lookupAcc [] ['A'] + (10 - 0) :=
  ⟨rfl,
   (timeTracker_flush_and_scenario (TimeTracker.mk [] (some (['A'], 0)))
     ['A'] ['B'] 0 10 rfl (by decide)).1⟩

/-- C9, counterexample: the root node created by `create_knowledge_graph`
has `type="main"`, which is not in the claimed set
{root, concept, subtopic, sub-concept}. -/
theorem node_type_main_counterexample :
    (create_knowledge_graph ⟨['T'], "s", [], []⟩ 0).lookupNode ['T'] =
      some (some ⟨25, "#6200EA", "s", "main", 0, none, 0⟩) ∧
    ("main" : String) ∉ ["root", "concept", "subtopic", "sub-concept"] := by
  decide

theorem typesOKb_iff (G : Graph) :
    G.typesOKb = true ↔
      ∀ p ∈ G.nodes, ∀ a, p.2 = some a → a.ntype ∈ allowedNodeTypes := by
  unfold Graph.typesOKb
  rw [List.all_eq_true]
  constructor
  · intro h p hp a ha
    have := h p hp
    rw [ha] at this
    simpa using this
  · intro h p hp
    cases hpa : p.2 with
    | none => simp
    | some a => simpa using h p hp a hpa

theorem mem_replaceNodeL {ns : List (Label × Option NodeAttrs)} {l : Label}
    {a : Option NodeAttrs} {p : Label × Option NodeAttrs}
    (h : p ∈ replaceNodeL ns l a) : p ∈ ns ∨ p.2 = a := by
  induction ns with
  | nil => simp [replaceNodeL] at h
  | cons q rest ih =>
    obtain ⟨k, b⟩ := q
    by_cases hk : k = l
    · rw [replaceNodeL, if_pos hk] at h
      rcases List.mem_cons.mp h with h' | h'
      · right; rw [h']
      · left; exact List.mem_cons_of_mem _ h'
    · rw [replaceNodeL, if_neg hk] at h
      rcases List.mem_cons.mp h with h' | h'
      · left; rw [h']; exact List.mem_cons_self _ _
      · rcases ih h' with h'' | h''
        · left; exact List.mem_cons_of_mem _ h''
        · right; exact h''

theorem typesOKb_addNodeOpt {G : Graph} {l : Label} {a? : Option NodeAttrs}
    (hG : G.typesOKb = true)
    (ha : ∀ a, a? = some a → a.ntype ∈ allowedNodeTypes) :
    (G.addNodeOpt l a?).typesOKb = true := by
  rw [typesOKb_iff] at hG ⊢
  unfold Graph.addNodeOpt
  cases hl : lookupNodeL G.nodes l with
  | none =>
    intro p hp a hpa
    rcases List.mem_append.mp hp with h | h
    · exact hG p h a hpa
    · simp at h
      subst h
      exact ha a hpa
  | some b =>
    cases a? with
    | none => exact hG
    | some a' =>
      intro p hp a hpa
      rcases mem_replaceNodeL hp with h | h
      · exact hG p h a hpa
      · rw [h] at hpa
        injection hpa with hh
        subst hh
        exact ha a' rfl

theorem typesOKb_ensureNode {G : Graph} {l : Label}
    (hG : G.typesOKb = true) : (G.ensureNode l).typesOKb = true := by
  rw [typesOKb_iff] at hG ⊢
  unfold Graph.ensureNode
  cases hl : lookupNodeL G.nodes l with
  | none =>
    intro p hp a hpa
    rcases List.mem_append.mp hp with h | h
    · exact hG p h a hpa
    · simp at h
      subst h
      simp at hpa
  | some b => exact hG

theorem add_edge_nodes (G : Graph) (a b : Label) (e : Option EdgeAttrs) :
    (G.add_edge a b e).nodes = ((G.ensureNode a).ensureNode b).nodes := by
  simp only [Graph.add_edge]
  cases lookupEdgeL ((G.ensureNode a).ensureNode b).edges a b with
  | none => rfl
  | some d =>
    cases e with
    | none => rfl
    | some e' => rfl

theorem typesOKb_add_edge {G : Graph} {a b : Label} {e : Option EdgeAttrs}
    (hG : G.typesOKb = true) : (G.add_edge a b e).typesOKb = true := by
  have hnodes := add_edge_nodes G a b e
  have h2 : ((G.ensureNode a).ensureNode b).typesOKb = true :=
    typesOKb_ensureNode (typesOKb_ensureNode hG)
  rw [typesOKb_iff] at h2 ⊢
  rw [hnodes]
  exact h2

theorem typesOKb_addConceptsLoop {main_topic : Label} {G : Graph}
    {cs : List ConceptRec} {nid : Nat} (hG : G.typesOKb = true) :
    (addConceptsLoop main_topic G cs nid).typesOKb = true := by
  induction cs generalizing G nid with
  | nil => exact hG
  | cons c rest ih =>
    unfold addConceptsLoop
    apply ih
    apply typesOKb_add_edge
    apply typesOKb_addNodeOpt hG
    intro a ha
    cases ha
    exact (by decide : ("concept" : String) ∈ allowedNodeTypes)

theorem typesOKb_addSubtopicsLoop {main_topic : Label} {G : Graph}
    {ss : List Subtopic} {nid : Nat} (hG : G.typesOKb = true) :
    (addSubtopicsLoop main_topic G ss nid).typesOKb = true := by
  induction ss generalizing G nid with
  | nil => exact hG
  | cons s rest ih =>
    unfold addSubtopicsLoop
    apply ih
    apply typesOKb_add_edge
    apply typesOKb_addNodeOpt hG
    intro a ha
    cases ha
    exact (by decide : ("subtopic" : String) ∈ allowedNodeTypes)

theorem typesOKb_addSubnodesLoop {pl : Nat} {label : Label} {G : Graph}
    {cs : List ConceptRec} {nid : Nat} (hG : G.typesOKb = true) :
    (addSubnodesLoop pl label G cs nid).typesOKb = true := by
  induction cs generalizing G nid with
  | nil => exact hG
  | cons s rest ih =>
    unfold addSubnodesLoop
    by_cases h : G.hasNode s.name
    · rw [if_pos h]
      exact ih hG
    · rw [if_neg h]
      apply ih
      apply typesOKb_add_edge
      apply typesOKb_addNodeOpt hG
      intro a ha
      cases ha
      exact (by decide : ("sub-concept" : String) ∈ allowedNodeTypes)

/-- C9, amended: every node created by root creation (`create_knowledge_graph`)
or by expansion (`add_subnodes_to_graph`, starting from any graph whose node
types are already in the set) has a `type` attribute in
{main, concept, subtopic, sub-concept} — "main", not "root", being the type
of the root node. -/
theorem node_types_invariant (td : TopicData) (nid : Nat) (G : Graph)
    (label : Label) (sd : SubnodesData) (nid' : Nat)
    (hG : G.typesOKb = true) :
    (create_knowledge_graph td nid).typesOKb = true ∧
    (add_subnodes_to_graph G label sd nid').typesOKb = true := by
  constructor
  · unfold create_knowledge_graph
    apply typesOKb_addSubtopicsLoop
    apply typesOKb_addConceptsLoop
    apply typesOKb_addNodeOpt
    · decide
    · intro a ha
      cases ha
      exact (by decide : ("main" : String) ∈ allowedNodeTypes)
  · unfold add_subnodes_to_graph
    exact typesOKb_addSubnodesLoop hG

/-- C9, witness: the invariant theorem applied to the sample graph and a
concrete topic/expansion pair. -/
theorem node_types_invariant_witness :
    sampleGraphAB.typesOKb = true ∧
    (create_knowledge_graph ⟨['T'], "s", [⟨['C'], "r", "cs"⟩], [⟨['S'], "ss"⟩]⟩ 0).typesOKb = true ∧
    (add_subnodes_to_graph sampleGraphAB ['A'] ⟨[⟨['C'], "r", "cs"⟩]⟩ 2).typesOKb = true :=
  ⟨by decide,
   (node_types_invariant ⟨['T'], "s", [⟨['C'], "r", "cs"⟩], [⟨['S'], "ss"⟩]⟩ 0
     sampleGraphAB ['A'] ⟨[⟨['C'], "r", "cs"⟩]⟩ 2 (by decide)).1,
   (node_types_invariant ⟨['T'], "s", [⟨['C'], "r", "cs"⟩], [⟨['S'], "ss"⟩]⟩ 0
     sampleGraphAB ['A'] ⟨[⟨['C'], "r", "cs"⟩]⟩ 2 (by decide)).2⟩

theorem lookupNodeL_append_isSome_mono {ns ms : List (Label × Option NodeAttrs)}
    {l : Label} (h : (lookupNodeL ns l).isSome = true) :
    (lookupNodeL (ns ++ ms) l).isSome = true := by
  rw [lookupNodeL_append]
  cases hl : lookupNodeL ns l with
  | none => rw [hl] at h; simp at h
  | some a => simp

theorem lookupNodeL_append_of_isSome {ns ms : List (Label × Option NodeAttrs)}
    {l : Label} (h : (lookupNodeL ns l).isSome = true) :
    lookupNodeL (ns ++ ms) l = lookupNodeL ns l := by
  rw [lookupNodeL_append]
  cases hl : lookupNodeL ns l with
  | none => rw [hl] at h; simp at h
  | some a => simp

theorem lookupEdgeL_append_of_isSome {es fs : List (Label × Label × Option EdgeAttrs)}
    {a b : Label} (h : (lookupEdgeL es a b).isSome = true) :
    lookupEdgeL (es ++ fs) a b = lookupEdgeL es a b := by
  rw [lookupEdgeL_append]
  cases hl : lookupEdgeL es a b with
  | none => rw [hl] at h; simp at h
  | some d => simp

/-- On a graph whose edges all have existing endpoints, no edge can involve
a label that is not a node. -/
theorem lookupEdgeL_eq_none_of_no_node {G : Graph} {x y : Label}
    (hwf : edgesEndpointsExist G = true) (hy : lookupNodeL G.nodes y = none) :
    lookupEdgeL G.edges x y = none := by
  rw [lookupEdgeL_eq_none_iff]
  intro t ht hc
  have hend := (List.all_eq_true.mp hwf) t ht
  rw [Bool.and_eq_true] at hend
  rcases hc with ⟨h1, h2⟩ | ⟨h1, h2⟩
  · rw [h2, hy] at hend
    simp at hend
  · rw [h1, hy] at hend
    simp at hend

/-- NetworkX `add_edge` on two endpoints that are already nodes, for a pair
not yet connected, appends exactly one edge and touches nothing else. -/
theorem add_edge_existing_endpoints {G : Graph} {a b : Label} {e : Option EdgeAttrs}
    (ha : (lookupNodeL G.nodes a).isSome = true)
    (hb : (lookupNodeL G.nodes b).isSome = true)
    (he : lookupEdgeL G.edges a b = none) :
    G.add_edge a b e = { G with edges := G.edges ++ [(a, b, e)] } := by
  have h1 : (G.ensureNode a).ensureNode b = G := by
    rw [Graph.ensureNode_of_isSome ha, Graph.ensureNode_of_isSome hb]
  simp only [Graph.add_edge]
  rw [h1, he]

/-- C6, counterexample: NetworkX `add_edge` with absent endpoints raises no
`MissingEndpointError` — on the empty graph it silently creates both
endpoint nodes and the edge; and reconstructing from a persisted document
whose edge key `x_y` names a `y` absent from the node map creates node `y`. -/
theorem add_edge_missing_endpoints_counterexample :
    Graph.add_edge Graph.empty ['a'] ['b'] (some ⟨"t", 1⟩) =
      { nodes := [(['a'], none), (['b'], none)],
        edges := [(['a'], ['b'], some ⟨"t", 1⟩)] } ∧
    nodes_edges_to_networkx
      ⟨[(['x'], some ⟨25, "c", "t", "main", 0, none, 0⟩)],
       [(['x', '_', 'y'], some ⟨"t", 1⟩)]⟩ =
      Except.ok
        { nodes := [(['x'], some ⟨25, "c", "t", "main", 0, none, 0⟩), (['y'], none)],
          edges := [(['x'], ['y'], some ⟨"t", 1⟩)] } ∧
    lookupNodeL [(['x'], some (⟨25, "c", "t", "main", 0, none, 0⟩ : NodeAttrs))] ['y']
      = none :=
  ⟨by decide, by rfl, by decide⟩

/-- C6, amended: `add_edge(a, b, attrs)` with endpoints missing from the
graph does not fail — it silently creates each missing endpoint as a bare
(attribute-less) node and then adds the edge; reconstruction from a
persisted document can therefore create edge endpoints that were absent
from the document's node map. -/
theorem add_edge_creates_missing_endpoints (G : Graph) (a b : Label)
    (e : Option EdgeAttrs)
    (ha : lookupNodeL G.nodes a = none) (hb : lookupNodeL G.nodes b = none)
    (hab : a ≠ b) (he : lookupEdgeL G.edges a b = none) :
    (G.add_edge a b e).lookupNode a = some none ∧
    (G.add_edge a b e).lookupNode b = some none ∧
    (G.add_edge a b e).lookupEdge a b = some e := by
  have h1 : G.ensureNode a = { G with nodes := G.nodes ++ [(a, none)] } := by
    unfold Graph.ensureNode
    rw [ha]
  have h2 : lookupNodeL (G.nodes ++ [(a, none)]) b = none := by
    rw [lookupNodeL_append, hb]
    simp [lookupNodeL, hab]
  have h3 : (G.ensureNode a).ensureNode b =
      { G with nodes := (G.nodes ++ [(a, none)]) ++ [(b, none)] } := by
    rw [h1]
    unfold Graph.ensureNode
    rw [h2]
  have h4 : G.add_edge a b e =
      { nodes := (G.nodes ++ [(a, none)]) ++ [(b, none)],
        edges := G.edges ++ [(a, b, e)] } := by
    simp only [Graph.add_edge]
    rw [h3, he]
  refine ⟨?_, ?_, ?_⟩
  · show lookupNodeL (G.add_edge a b e).nodes a = some none
    rw [h4]
    rw [lookupNodeL_append, lookupNodeL_append, ha]
    simp [lookupNodeL]
  · show lookupNodeL (G.add_edge a b e).nodes b = some none
    rw [h4]
    rw [lookupNodeL_append, h2]
    simp [lookupNodeL]
  · show lookupEdgeL (G.add_edge a b e).edges a b = some e
    rw [h4]
    rw [lookupEdgeL_append, he]
    simp [lookupEdgeL]

/-- C6, witness: the amended theorem applied to the empty graph. -/
theorem add_edge_creates_missing_endpoints_witness :
    lookupNodeL Graph.empty.nodes ['a'] = none ∧
    (Graph.add_edge Graph.empty ['a'] ['b'] (some ⟨"t", 1⟩)).lookupEdge ['a'] ['b']
      = some (some ⟨"t", 1⟩) :=
  ⟨by decide,
   (add_edge_creates_missing_endpoints Graph.empty ['a'] ['b'] (some ⟨"t", 1⟩)
     (by decide) (by decide) (by decide) (by decide)).2.2⟩

theorem splitOnChar_of_not_mem (c : Char) (b : List Char) (h : c ∉ b) :
    splitOnChar c b = [b] := by
  induction b with
  | nil => rfl
  | cons x xs ih =>
    have hx : ¬ x = c := by
      intro hc
      exact h (hc ▸ List.mem_cons_self x xs)
    have hxs : c ∉ xs := fun hc => h (List.mem_cons_of_mem _ hc)
    rw [splitOnChar, ih hxs]
    simp [hx]

theorem splitOnChar_key (c : Char) (a b : List Char) (ha : c ∉ a) (hb : c ∉ b) :
    splitOnChar c (a ++ c :: b) = [a, b] := by
  induction a with
  | nil =>
    rw [List.nil_append, splitOnChar, splitOnChar_of_not_mem c b hb]
    simp
  | cons x xs ih =>
    have hx : ¬ x = c := by
      intro hc
      exact ha (hc ▸ List.mem_cons_self x xs)
    have hxs : c ∉ xs := fun hc => ha (List.mem_cons_of_mem _ hc)
    rw [List.cons_append, splitOnChar, ih hxs]
    simp [hx]

theorem nodesWFb_cons {k : Label} {a : Option NodeAttrs}
    {rest : List (Label × Option NodeAttrs)}
    (h : nodesWFb ((k, a) :: rest) = true) :
    lookupNodeL rest k = none ∧ '_' ∉ k ∧ nodesWFb rest = true := by
  unfold nodesWFb at h
  rw [Bool.and_eq_true, Bool.and_eq_true] at h
  refine ⟨Option.isNone_iff_eq_none.mp h.1.1, ?_, h.2⟩
  have := h.1.2
  simp at this
  exact this

theorem foldl_addNodeOpt (ns : List (Label × Option NodeAttrs)) (acc : Graph)
    (hdisj : ∀ p ∈ ns, lookupNodeL acc.nodes p.1 = none)
    (hwf : nodesWFb ns = true) :
    ns.foldl (fun G p => G.addNodeOpt p.1 p.2) acc =
      { acc with nodes := acc.nodes ++ ns } := by
  induction ns generalizing acc with
  | nil => simp
  | cons p rest ih =>
    obtain ⟨k, a⟩ := p
    obtain ⟨hkr, _, hwfr⟩ := nodesWFb_cons hwf
    have hstep : acc.addNodeOpt k a = { acc with nodes := acc.nodes ++ [(k, a)] } := by
      unfold Graph.addNodeOpt
      rw [hdisj (k, a) (List.mem_cons_self _ _)]
    have hdisj' : ∀ q ∈ rest, lookupNodeL (acc.nodes ++ [(k, a)]) q.1 = none := by
      intro q hq
      rw [lookupNodeL_append, hdisj q (List.mem_cons_of_mem _ hq)]
      have hne : ¬ k = q.1 := by
        intro hc
        exact (lookupNodeL_eq_none_iff rest k).mp hkr q hq hc.symm
      simp [lookupNodeL, hne]
    rw [List.foldl_cons]
    show List.foldl (fun G p => G.addNodeOpt p.1 p.2) (acc.addNodeOpt k a) rest = _
    rw [hstep, ih _ hdisj' hwfr]
    simp

theorem edgesWFb_cons {ns : List (Label × Option NodeAttrs)} {a b : Label}
    {d : Option EdgeAttrs} {rest : List (Label × Label × Option EdgeAttrs)}
    (h : edgesWFb ns ((a, b, d) :: rest) = true) :
    (lookupNodeL ns a).isSome = true ∧ (lookupNodeL ns b).isSome = true ∧
    lookupEdgeL rest a b = none ∧ edgesWFb ns rest = true := by
  unfold edgesWFb at h
  rw [Bool.and_eq_true, Bool.and_eq_true, Bool.and_eq_true] at h
  exact ⟨h.1.1.1, h.1.1.2, Option.isNone_iff_eq_none.mp h.1.2, h.2⟩

theorem lookupNodeL_cons_ne {k : Label} {a : Option NodeAttrs}
    {rest : List (Label × Option NodeAttrs)} {l : Label} (hk : ¬ k = l) :
    lookupNodeL ((k, a) :: rest) l = lookupNodeL rest l := by
  show (if k = l then some a else lookupNodeL rest l) = lookupNodeL rest l
  rw [if_neg hk]

theorem nodesWFb_no_underscore {ns : List (Label × Option NodeAttrs)}
    (h : nodesWFb ns = true) {l : Label}
    (hs : (lookupNodeL ns l).isSome = true) : '_' ∉ l := by
  induction ns with
  | nil => simp [lookupNodeL] at hs
  | cons p rest ih =>
    obtain ⟨k, a⟩ := p
    obtain ⟨hkr, hu, hr⟩ := nodesWFb_cons h
    by_cases hk : k = l
    · subst hk
      exact hu
    · rw [lookupNodeL_cons_ne hk] at hs
      exact ih hr hs

theorem edgesWFb_endpoints_pairwise {ns : List (Label × Option NodeAttrs)} :
    ∀ {es : List (Label × Label × Option EdgeAttrs)}, edgesWFb ns es = true →
    (∀ t ∈ es, (lookupNodeL ns t.1).isSome = true ∧
      (lookupNodeL ns t.2.1).isSome = true) ∧
    es.Pairwise (fun s t =>
      ¬((s.1 = t.1 ∧ s.2.1 = t.2.1) ∨ (s.1 = t.2.1 ∧ s.2.1 = t.1)))
  | [], _ => ⟨by simp, List.Pairwise.nil⟩
  | (a, b, d) :: rest, h => by
    obtain ⟨h1, h2, h3, h4⟩ := edgesWFb_cons h
    obtain ⟨ihend, ihpw⟩ := edgesWFb_endpoints_pairwise h4
    constructor
    · intro t ht
      rcases List.mem_cons.mp ht with h' | h'
      · subst h'
        exact ⟨h1, h2⟩
      · exact ihend t h'
    · rw [List.pairwise_cons]
      refine ⟨?_, ihpw⟩
      intro t ht hc
      apply (lookupEdgeL_eq_none_iff rest a b).mp h3 t ht
      rcases hc with ⟨e1, e2⟩ | ⟨e1, e2⟩
      · exact Or.inl ⟨e1.symm, e2.symm⟩
      · exact Or.inr ⟨e2.symm, e1.symm⟩

theorem foldlM_addDocEdge (es : List (Label × Label × Option EdgeAttrs))
    (acc : Graph)
    (hend : ∀ t ∈ es, (lookupNodeL acc.nodes t.1).isSome = true ∧
      (lookupNodeL acc.nodes t.2.1).isSome = true)
    (hdisj : ∀ t ∈ es, lookupEdgeL acc.edges t.1 t.2.1 = none)
    (hpw : es.Pairwise (fun s t =>
      ¬((s.1 = t.1 ∧ s.2.1 = t.2.1) ∨ (s.1 = t.2.1 ∧ s.2.1 = t.1))))
    (hus : ∀ t ∈ es, '_' ∉ t.1 ∧ '_' ∉ t.2.1) :
    (es.map (fun t => (t.1 ++ '_' :: t.2.1, t.2.2))).foldlM addDocEdge acc =
      Except.ok { acc with edges := acc.edges ++ es } := by
  induction es generalizing acc with
  | nil =>
    simp only [List.map_nil, List.foldlM_nil, List.append_nil]
    rfl
  | cons t rest ih =>
    obtain ⟨a, b, d⟩ := t
    have hsplit : splitOnChar '_' (a ++ '_' :: b) = [a, b] :=
      splitOnChar_key '_' a b (hus (a, b, d) (List.mem_cons_self _ _)).1
        (hus (a, b, d) (List.mem_cons_self _ _)).2
    have hstep : addDocEdge acc (a ++ '_' :: b, d) =
        Except.ok { acc with edges := acc.edges ++ [(a, b, d)] } := by
      have headd := @add_edge_existing_endpoints acc a b d
        (hend (a, b, d) (List.mem_cons_self _ _)).1
        (hend (a, b, d) (List.mem_cons_self _ _)).2
        (hdisj (a, b, d) (List.mem_cons_self _ _))
      simp only [addDocEdge, hsplit]
      rw [headd]
    have hdisj' : ∀ s ∈ rest,
        lookupEdgeL (acc.edges ++ [(a, b, d)]) s.1 s.2.1 = none := by
      intro s hs
      rw [lookupEdgeL_append, hdisj s (List.mem_cons_of_mem _ hs)]
      have hrel : ¬((a = s.1 ∧ b = s.2.1) ∨ (a = s.2.1 ∧ b = s.1)) :=
        (List.pairwise_cons.mp hpw).1 s hs
      simp [lookupEdgeL, hrel]
    rw [List.map_cons, List.foldlM_cons]
    show addDocEdge acc (a ++ '_' :: b, d) >>= _ = _
    rw [hstep]
    have hbind :
        (Except.ok { acc with edges := acc.edges ++ [(a, b, d)] } >>=
          fun G => (rest.map (fun t => (t.1 ++ '_' :: t.2.1, t.2.2))).foldlM addDocEdge G) =
        (rest.map (fun t => (t.1 ++ '_' :: t.2.1, t.2.2))).foldlM addDocEdge
          { acc with edges := acc.edges ++ [(a, b, d)] } := rfl
    rw [hbind, ih { acc with edges := acc.edges ++ [(a, b, d)] }
      (fun s hs => hend s (List.mem_cons_of_mem _ hs)) hdisj'
      (List.pairwise_cons.mp hpw).2 (fun s hs => hus s (List.mem_cons_of_mem _ hs))]
    simp

/-- C3: for every well-formed graph none of whose labels contains an
underscore, converting to the flat node-map/edge-map document
(`networkx_to_nodes_edges`) and reconstructing (`nodes_edges_to_networkx`)
succeeds and reproduces the graph exactly — same node labels with the same
attributes, same edges with the same attributes. -/
theorem document_roundtrip (G : Graph) (h : G.wfPersist = true) :
    nodes_edges_to_networkx (networkx_to_nodes_edges G) = Except.ok G := by
  obtain ⟨ns, es⟩ := G
  unfold Graph.wfPersist at h
  rw [Bool.and_eq_true] at h
  obtain ⟨hn, he⟩ := h
  have hn' : nodesWFb ns = true := hn
  have he' : edgesWFb ns es = true := he
  obtain ⟨hend, hpw⟩ := edgesWFb_endpoints_pairwise he'
  have hus : ∀ t ∈ es, '_' ∉ t.1 ∧ '_' ∉ t.2.1 := by
    intro t ht
    exact ⟨nodesWFb_no_underscore hn' (hend t ht).1,
           nodesWFb_no_underscore hn' (hend t ht).2⟩
  have hfold := foldl_addNodeOpt ns Graph.empty (fun p hp => rfl) hn'
  have hfold' : ns.foldl (fun G p => G.addNodeOpt p.1 p.2) Graph.empty =
      (⟨ns, []⟩ : Graph) := by
    rw [hfold]
    simp [Graph.empty]
  have hedges := foldlM_addDocEdge es (⟨ns, []⟩ : Graph) hend
    (fun t ht => rfl) hpw hus
  show (es.map (fun t => (t.1 ++ '_' :: t.2.1, t.2.2))).foldlM addDocEdge
      (ns.foldl (fun G p => G.addNodeOpt p.1 p.2) Graph.empty) =
    Except.ok (⟨ns, es⟩ : Graph)
  rw [hfold', hedges]
  simp

/-- C3, witness: the round-trip theorem applied to a concrete two-node,
one-edge graph. -/
theorem document_roundtrip_witness :
    sampleRoundtripGraph.wfPersist = true ∧
    nodes_edges_to_networkx (networkx_to_nodes_edges sampleRoundtripGraph) =
      Except.ok sampleRoundtripGraph :=
  ⟨by decide, document_roundtrip sampleRoundtripGraph (by decide)⟩

theorem lookupNodeL_append_isSome_cases {ns ms : List (Label × Option NodeAttrs)}
    {l : Label} (h : (lookupNodeL (ns ++ ms) l).isSome = true) :
    (lookupNodeL ns l).isSome = true ∨ (lookupNodeL ms l).isSome = true := by
  rw [lookupNodeL_append] at h
  cases hl : lookupNodeL ns l with
  | none =>
    rw [hl] at h
    exact Or.inr h
  | some a =>
    left
    rfl

theorem lookupNodeL_single_isSome {k : Label} {x : Option NodeAttrs} {l : Label}
    (h : (lookupNodeL [(k, x)] l).isSome = true) : k = l := by
  by_cases hk : k = l
  · exact hk
  · rw [lookupNodeL_cons_ne hk] at h
    simp [lookupNodeL] at h

theorem lookupEdgeL_append_isSome_cases
    {es fs : List (Label × Label × Option EdgeAttrs)} {a b : Label}
    (h : (lookupEdgeL (es ++ fs) a b).isSome = true) :
    (lookupEdgeL es a b).isSome = true ∨ (lookupEdgeL fs a b).isSome = true := by
  rw [lookupEdgeL_append] at h
  cases hl : lookupEdgeL es a b with
  | none =>
    rw [hl] at h
    exact Or.inr h
  | some d =>
    left
    rfl

theorem lookupEdgeL_single_isSome {x y : Label} {d : Option EdgeAttrs}
    {a b : Label} (h : (lookupEdgeL [(x, y, d)] a b).isSome = true) :
    (x = a ∧ y = b) ∨ (x = b ∧ y = a) := by
  by_cases hc : (x = a ∧ y = b) ∨ (x = b ∧ y = a)
  · exact hc
  · exfalso
    have hnone : lookupEdgeL [(x, y, d)] a b = none := by
      simp [lookupEdgeL, hc]
    rw [hnone] at h
    simp at h

theorem lookupEdgeL_append_isSome_mono
    {es fs : List (Label × Label × Option EdgeAttrs)} {a b : Label}
    (h : (lookupEdgeL es a b).isSome = true) :
    (lookupEdgeL (es ++ fs) a b).isSome = true := by
  rw [lookupEdgeL_append_of_isSome h]
  exact h

theorem addSubnodesLoop_cons_new {pl : Nat} {label : Label} {s : ConceptRec}
    {rest : List ConceptRec} {G : Graph} {nid : Nat}
    (hwf : edgesEndpointsExist G = true)
    (hn : (lookupNodeL G.nodes label).isSome = true)
    (hmem' : lookupNodeL G.nodes s.name = none) :
    addSubnodesLoop pl label G (s :: rest) nid =
      addSubnodesLoop pl label (subnodeStep pl label s G nid) rest (nid + 1) := by
  have hmem : ¬ G.hasNode s.name := by
    intro hc
    rw [Graph.hasNode, Graph.lookupNode, hmem'] at hc
    simp at hc
  have hG1 : G.add_node s.name (subnodeAttrs pl label s nid) =
      { G with nodes := G.nodes ++ [(s.name, some (subnodeAttrs pl label s nid))] } := by
    unfold Graph.add_node Graph.addNodeOpt
    rw [hmem']
  have hfind : (lookupNodeL
      (G.nodes ++ [(s.name, some (subnodeAttrs pl label s nid))]) s.name).isSome
      = true := by
    rw [lookupNodeL_append, hmem']
    simp [lookupNodeL]
  have hnoedge : lookupEdgeL G.edges label s.name = none :=
    lookupEdgeL_eq_none_of_no_node hwf hmem'
  have hG2 : (G.add_node s.name (subnodeAttrs pl label s nid)).add_edge label
      s.name (some { title := s.relation, weight := 1 }) =
      subnodeStep pl label s G nid := by
    rw [hG1]
    exact @add_edge_existing_endpoints _ label s.name
      (some { title := s.relation, weight := 1 })
      (lookupNodeL_append_isSome_mono hn) hfind hnoedge
  have hunfold : addSubnodesLoop pl label G (s :: rest) nid =
      if G.hasNode s.name then addSubnodesLoop pl label G rest nid
      else addSubnodesLoop pl label
        ((G.add_node s.name (subnodeAttrs pl label s nid)).add_edge label s.name
          (some { title := s.relation, weight := 1 })) rest (nid + 1) := rfl
  rw [hunfold, if_neg hmem, hG2]

theorem edgesEndpointsExist_subnodeStep {pl : Nat} {label : Label}
    {s : ConceptRec} {G : Graph} {nid : Nat}
    (hwf : edgesEndpointsExist G = true)
    (hn : (lookupNodeL G.nodes label).isSome = true) :
    edgesEndpointsExist (subnodeStep pl label s G nid) = true := by
  unfold edgesEndpointsExist subnodeStep
  rw [List.all_eq_true]
  intro t ht
  rcases List.mem_append.mp ht with h' | h'
  · have hold := (List.all_eq_true.mp hwf) t h'
    rw [Bool.and_eq_true] at hold
    rw [Bool.and_eq_true]
    exact ⟨lookupNodeL_append_isSome_mono hold.1,
           lookupNodeL_append_isSome_mono hold.2⟩
  · simp only [List.mem_singleton] at h'
    subst h'
    rw [Bool.and_eq_true]
    refine ⟨lookupNodeL_append_isSome_mono hn, ?_⟩
    rw [lookupNodeL_append]
    cases hl : lookupNodeL G.nodes s.name with
    | none => simp [lookupNodeL]
    | some a => simp

/-- The frame invariant of the `add_subnodes_to_graph` loop: lookups of
pre-existing nodes and edges are unchanged, every new node is named by the
response, and every new edge is incident to the expanded node. -/
theorem addSubnodesLoop_frame (pl : Nat) (label : Label)
    (cs : List ConceptRec) (G : Graph) (nid : Nat)
    (hwf : edgesEndpointsExist G = true)
    (hn : (lookupNodeL G.nodes label).isSome = true) :
    (∀ l, (lookupNodeL G.nodes l).isSome = true →
      lookupNodeL (addSubnodesLoop pl label G cs nid).nodes l =
        lookupNodeL G.nodes l) ∧
    (∀ a b, (lookupEdgeL G.edges a b).isSome = true →
      lookupEdgeL (addSubnodesLoop pl label G cs nid).edges a b =
        lookupEdgeL G.edges a b) ∧
    (∀ l, (lookupNodeL (addSubnodesLoop pl label G cs nid).nodes l).isSome = true →
      (lookupNodeL G.nodes l).isSome = true ∨ l ∈ cs.map (fun s => s.name)) ∧
    (∀ a b, (lookupEdgeL (addSubnodesLoop pl label G cs nid).edges a b).isSome = true →
      (lookupEdgeL G.edges a b).isSome = true ∨ a = label ∨ b = label) := by
  induction cs generalizing G nid with
  | nil =>
    exact ⟨fun l _ => rfl, fun a b _ => rfl,
           fun l h => Or.inl h, fun a b h => Or.inl h⟩
  | cons s rest ih =>
    by_cases hmem : G.hasNode s.name
    · have hloop : addSubnodesLoop pl label G (s :: rest) nid =
          addSubnodesLoop pl label G rest nid := by
        have hunfold : addSubnodesLoop pl label G (s :: rest) nid =
            if G.hasNode s.name then addSubnodesLoop pl label G rest nid
            else addSubnodesLoop pl label
              ((G.add_node s.name (subnodeAttrs pl label s nid)).add_edge label
                s.name (some { title := s.relation, weight := 1 })) rest
              (nid + 1) := rfl
        rw [hunfold, if_pos hmem]
      obtain ⟨p1, p2, p3, p4⟩ := ih G nid hwf hn
      rw [hloop]
      exact ⟨p1, p2,
        fun l h => (p3 l h).imp_right (List.mem_cons_of_mem _),
        p4⟩
    · have hmem' : lookupNodeL G.nodes s.name = none := by
        rw [← Option.not_isSome_iff_eq_none]
        exact hmem
      rw [addSubnodesLoop_cons_new hwf hn hmem']
      obtain ⟨q1, q2, q3, q4⟩ := ih (subnodeStep pl label s G nid) (nid + 1)
        (edgesEndpointsExist_subnodeStep hwf hn)
        (lookupNodeL_append_isSome_mono hn)
      refine ⟨?_, ?_, ?_, ?_⟩
      · intro l hl
        rw [q1 l (lookupNodeL_append_isSome_mono hl)]
        exact lookupNodeL_append_of_isSome hl
      · intro a b hab
        rw [q2 a b (lookupEdgeL_append_isSome_mono hab)]
        exact lookupEdgeL_append_of_isSome hab
      · intro l hl
        rcases q3 l hl with h' | h'
        · rcases lookupNodeL_append_isSome_cases h' with h'' | h''
          · exact Or.inl h''
          · right
            rw [← lookupNodeL_single_isSome h'']
            exact List.mem_cons_self _ _
        · exact Or.inr (List.mem_cons_of_mem _ h')
      · intro a b hab
        rcases q4 a b hab with h' | h'
        · rcases lookupEdgeL_append_isSome_cases h' with h'' | h''
          · exact Or.inl h''
          · rcases lookupEdgeL_single_isSome h'' with ⟨e1, _⟩ | ⟨e1, _⟩
            · exact Or.inr (Or.inl e1.symm)
            · exact Or.inr (Or.inr e1.symm)
        · exact Or.inr h'

/-- C10: expanding a node is frame-preserving — every node present before
the expansion keeps its attribute dict (same lookup result, hence same size,
color, title, type, level, parent and node_id), every edge present before
keeps its attributes, and the expansion only adds nodes named by the AI
response and edges incident to the expanded node. -/
theorem expansion_frame_effect (G : Graph) (node_name : Label)
    (sd : SubnodesData) (nid : Nat)
    (hwf : edgesEndpointsExist G = true) (hn : G.hasNode node_name) :
    framePreserved G (add_subnodes_to_graph G node_name sd nid) = true ∧
    onlyAdds G (add_subnodes_to_graph G node_name sd nid) node_name
      (sd.related_concepts.map (fun s => s.name)) = true := by
  obtain ⟨p1, p2, p3, p4⟩ := addSubnodesLoop_frame (G.parentLevel node_name)
    node_name sd.related_concepts G nid hwf hn
  constructor
  · unfold framePreserved
    rw [Bool.and_eq_true]
    constructor
    · rw [List.all_eq_true]
      intro p hp
      rw [decide_eq_true_eq]
      exact p1 p.1 (lookupNodeL_isSome_of_mem hp)
    · rw [List.all_eq_true]
      intro t ht
      rw [decide_eq_true_eq]
      exact p2 t.1 t.2.1 (lookupEdgeL_isSome_of_mem ht)
  · unfold onlyAdds
    rw [Bool.and_eq_true]
    constructor
    · rw [List.all_eq_true]
      intro p hp
      rw [Bool.or_eq_true]
      rcases p3 p.1 (lookupNodeL_isSome_of_mem hp) with h | h
      · exact Or.inl h
      · right
        rw [List.any_eq_true]
        exact ⟨p.1, h, by simp⟩
    · rw [List.all_eq_true]
      intro t ht
      rw [Bool.or_eq_true, Bool.or_eq_true]
      rcases p4 t.1 t.2.1 (lookupEdgeL_isSome_of_mem ht) with h | h | h
      · exact Or.inl (Or.inl h)
      · exact Or.inl (Or.inr (by simp [h]))
      · exact Or.inr (by simp [h])

/-- C10, witness: the frame theorem applied to a two-node one-edge graph
expanded at node `a` with one fresh concept `c`. -/
theorem expansion_frame_effect_witness :
    edgesEndpointsExist sampleRoundtripGraph = true ∧
    framePreserved sampleRoundtripGraph
      (add_subnodes_to_graph sampleRoundtripGraph ['a']
        ⟨[⟨['c'], "r", "s"⟩]⟩ 2) = true :=
  ⟨by decide,
   (expansion_frame_effect sampleRoundtripGraph ['a'] ⟨[⟨['c'], "r", "s"⟩]⟩ 2
     (by decide) (by decide)).1⟩
